import Mathlib

/-!
Verification development for the pdfimage2latex extension (src/extension.ts).

The source is a single-threaded, event-driven TypeScript module.  Its pure
computations (marker scanning and splicing, output parsing, path derivation)
are embedded over lists of characters; its effectful loops (stability polling,
retrying copy, the debounced watcher) are embedded by making the outcomes of
the external effects (metadata polls, copy attempts, filesystem notifications)
explicit parameters, and its registries as explicit state values.  Overflow is
irrelevant here: the source only counts loop iterations with small numbers.
-/

/- ================= Text embedding ================= -/

/-- Characters of a string literal; document texts and paths are modelled as
lists of characters, matching JavaScript strings at the code points the source
manipulates. -/
def strL (s : String) : List Char := s.data

/-- The literal anchor marker of the source (the regex /%ANCHOR%/g and the
includes check are all about this fixed eight-character token). -/
def anchorMarker : List Char := strL "%ANCHOR%"

/-- Join a list of text segments with a separator text; Array.prototype.join
in the source, and also the result of replacing every scanned match of the
marker by a common replacement. -/
def joinSep (sep : List Char) : List (List Char) → List Char
  | [] => []
  | [s] => s
  | s :: ss => s ++ sep ++ joinSep sep ss

/-- Fuel-indexed splitting of a text at the leftmost non-overlapping
occurrences of the anchor marker, exactly the way both the global regex scan
of updateLatexDocument (regex.exec resuming at lastIndex) and the global
String.replace cleanup traverse the text: at each position, if the marker
starts here, a segment boundary is recorded and scanning resumes after the
whole eight-character match (one character is consumed by the pattern, seven
more are dropped); otherwise the character joins the current segment.  The
fuel is instantiated with the length of the text. -/
def anchorSegsF : Nat → List Char → List (List Char)
  | _, [] => [[]]
  | 0, t => [t]
  | fuel + 1, c :: rest =>
    if anchorMarker <+: (c :: rest) then
      [] :: anchorSegsF fuel (rest.drop 7)
    else
      match anchorSegsF fuel rest with
      | [] => [[c]]
      | s :: ss => (c :: s) :: ss

/-- Split a document text at the anchor-marker occurrences found by the scan. -/
def anchorSegs (t : List Char) : List (List Char) := anchorSegsF t.length t

/-- Number of anchor occurrences found by the scan of updateLatexDocument
(anchorPositions.length in the source). -/
def countAnchor (t : List Char) : Nat := (anchorSegs t).length - 1

/- ================= Document splicer ================= -/

/-- External boundary: the two functions of Node's path module used by
updateLatexDocument (path.dirname and path.relative).  They belong to the
platform, not to the repository, so the embedding abstracts them as
parameters of the splice. -/
structure PathOps where
  dirname : List Char → List Char
  relative : List Char → List Char → List Char

/-- Backslash-to-forward-slash normalization applied to each relative path
(relPath.replace of every backslash by a slash in the source). -/
def normalizeSlashes (p : List Char) : List Char :=
  p.map (fun c => if c = '\\' then '/' else c)

/-- Opening part of the per-artifact figure template of updateLatexDocument,
up to the insertion point of the relative path. -/
def figPre : List Char :=
  strL "\\begin\x7bfigure\x7d[H]\n  \\includegraphics[width=\\textwidth]\x7b"

/-- Closing part of the per-artifact figure template. -/
def figPost : List Char := strL "\x7d\n\\end\x7bfigure\x7d"

/-- Blank-line separator between per-artifact blocks (the join of the source). -/
def blankLine : List Char := strL "\n\n"

/-- The normalized artifact path inserted into a figure block: relative to the
document's directory, separators normalized. -/
def relFigPath (po : PathOps) (texPath img : List Char) : List Char :=
  normalizeSlashes (po.relative (po.dirname texPath) img)

/-- The figure block generated for one artifact path. -/
def figBlock (relPath : List Char) : List Char := figPre ++ relPath ++ figPost

/-- The full replacement content of one splice: one figure entry per artifact,
in artifact order, joined with a blank line (the figures value of the source). -/
def figuresText (po : PathOps) (texPath : List Char) (images : List (List Char)) : List Char :=
  joinSep blankLine (images.map (fun img => figBlock (relFigPath po texPath img)))

/-- The error updateLatexDocument throws when the document has no anchor. -/
inductive SpliceErr where
  | noAnchor
deriving DecidableEq

/-- updateLatexDocument as a transformation of the document text: scan for all
marker occurrences; with none, fail with the no-anchor error before any edit;
otherwise apply the batch edit that replaces every scanned occurrence with the
figures content (the collected positions are exactly the leftmost
non-overlapping matches, so the batch edit rejoins the in-between segments
with the figures text), then the cleanup edit: the document text with every
remaining marker removed is written back over the range from offset zero to
the length of that shortened text, leaving any tail of the current text beyond
that range in place. -/
def updateLatexDocument (po : PathOps) (texPath : List Char) (images : List (List Char))
    (text : List Char) : Except SpliceErr (List Char) :=
  if countAnchor text = 0 then .error .noAnchor
  else
    let figures := figuresText po texPath images
    let afterBatch := joinSep figures (anchorSegs text)
    let newText := joinSep [] (anchorSegs afterBatch)
    .ok (newText ++ afterBatch.drop newText.length)

example : countAnchor (strL "a%ANCHOR%b%ANCHOR%c") = 2 := by decide
example : countAnchor (strL "%ANCHOR%ANCHOR%") = 1 := by decide
example : countAnchor (strL "nothing here") = 0 := by decide
example : anchorSegs (strL "a%ANCHOR%b") = [strL "a", strL "b"] := by decide
example : joinSep (strL "X") [strL "a", strL "b"] = strL "aXb" := by decide

/- ================= Debounced watcher (createSmartPdfWatcher) ================= -/

/-- The three control points of the closure state of createSmartPdfWatcher:
idle (isProcessing is false), running (the handler has set isProcessing and is
awaiting the callback), cooling (the callback settled, the finally clause
scheduled the cooldown timer, isProcessing is still true until it fires). -/
inductive WatchPhase where
  | idle
  | running
  | cooling
deriving DecidableEq

/-- Events a watch entry reacts to: a raw filesystem notification (onDidChange
or onDidCreate), the settling of the awaited callback (success or failure,
through the finally clause), and the firing of the cooldown timer that resets
isProcessing. -/
inductive WatchEv where
  | notify
  | complete
  | timerFire
deriving DecidableEq

/-- Observable state of one watch entry, with counters for how many reaction
executions have begun and how many have settled. -/
structure WatchSt where
  phase : WatchPhase
  started : Nat
  finished : Nat
deriving DecidableEq

/-- One step of the handler logic of createSmartPdfWatcher: a notification in
the idle phase enters the guarded section and starts the callback; while
isProcessing is true (running or cooling) a notification returns immediately,
dropped, not queued; callback settlement moves to the cooldown phase; the
timer firing clears isProcessing.  Events that cannot occur in a phase leave
the state unchanged. -/
def watchStep : WatchSt → WatchEv → WatchSt
  | ⟨.idle, s, f⟩, .notify => ⟨.running, s + 1, f⟩
  | ⟨.running, s, f⟩, .notify => ⟨.running, s, f⟩
  | ⟨.cooling, s, f⟩, .notify => ⟨.cooling, s, f⟩
  | ⟨.running, s, f⟩, .complete => ⟨.cooling, s, f + 1⟩
  | ⟨.cooling, s, f⟩, .timerFire => ⟨.idle, s, f⟩
  | st, _ => st

/-- Run a sequence of events against a watch entry. -/
def watchRun (st : WatchSt) (evs : List WatchEv) : WatchSt := evs.foldl watchStep st

/-- A freshly created watch entry: isProcessing is false, nothing has run. -/
def watchInit : WatchSt := ⟨.idle, 0, 0⟩

/-- Number of reaction executions currently in flight in a watch state. -/
def inFlight (st : WatchSt) : Nat := st.started - st.finished

/- ================= Stability detector (checkFileStable) ================= -/

/-- The polling loop of checkFileStable.  The outcome of each fs.promises.stat
call is an explicit parameter: poll i is none when the i-th stat throws (file
absent or locked) and some (size, mtime) when it succeeds.  A failing poll is
caught inside the loop body and merely consumes that iteration, leaving the
last-observed pair unchanged; a successful poll returns true at once when it
equals the last-observed pair and otherwise overwrites it.  The fuel is the
remaining iteration budget. -/
def stableLoop (poll : Nat → Option (Nat × Nat)) : Nat → Nat × Nat → Nat → Bool
  | 0, _, _ => false
  | fuel + 1, last, i =>
    match poll i with
    | some cur => if cur = last then true else stableLoop poll fuel cur (i + 1)
    | none => stableLoop poll fuel last (i + 1)

/-- checkFileStable: checkCount polling iterations starting from the
initialized last-observed pair (lastSize = 0, lastMtime = 0), false when the
budget is exhausted.  The interval argument only times the sleeps between
polls in the source and does not influence the result. -/
def checkFileStable (poll : Nat → Option (Nat × Nat)) (checkCount : Nat)
    (_intervalMs : Nat) : Bool :=
  stableLoop poll checkCount (0, 0) 0

/-- The last successfully observed (size, mtime) pair strictly before poll i,
or the initial (0, 0) sentinel when every earlier poll failed. -/
def lastObs (poll : Nat → Option (Nat × Nat)) : Nat → Nat × Nat
  | 0 => (0, 0)
  | i + 1 =>
    match poll i with
    | some p => p
    | none => lastObs poll i

example : checkFileStable (fun i => some (5, i)) 3 200 = false := rfl
example : checkFileStable (fun _ => some (5, 9)) 3 200 = true := rfl
example : checkFileStable (fun _ => none) 3 200 = false := rfl
example :
    checkFileStable (fun i => if i = 1 then none else some (5, 9)) 3 200 = true := rfl

/- ================= Retrying replicator (syncPdfFiles) ================= -/

/-- The retry loop of syncPdfFiles (and of atomicFileCopy, which is the same
loop).  The outcome of each copyFile call is the explicit parameter attempt;
rem is the number of loop iterations left (maxRetries minus the loop index i),
and the accumulated backoff sleeps are recorded.  On the last iteration a
failure is rethrown; earlier failures sleep 500 * (i + 1) milliseconds and
continue. -/
def copyLoopGo (attempt : Nat → Except E Unit) (maxRetries : Nat) :
    Nat → Nat → List Nat → Except E Unit × Nat × List Nat
  | 0, i, ds => (.ok (), i, ds)
  | rem + 1, i, ds =>
    match attempt i with
    | .ok _ => (.ok (), i + 1, ds)
    | .error e =>
      if i = maxRetries - 1 then (.error e, i + 1, ds)
      else copyLoopGo attempt maxRetries rem (i + 1) (ds ++ [500 * (i + 1)])

/-- The whole copy loop: outcome, number of copy attempts made, and the
backoff durations slept between attempts. -/
def copyRetry (attempt : Nat → Except E Unit) (maxRetries : Nat) :
    Except E Unit × Nat × List Nat :=
  copyLoopGo attempt maxRetries maxRetries 0 []

/-- The failures of syncPdfFiles: the main artifact is missing, the stability
check failed, or the copy loop exhausted its retries with e the last
underlying copy error. -/
inductive SyncErr (E : Type) where
  | notFound
  | notStable
  | copyFailed (e : E)
deriving DecidableEq

/-- Result of one syncPdfFiles run: its outcome, how many copy attempts were
made, and the backoff sleeps performed. -/
structure SyncResult (E : Type) where
  outcome : Except (SyncErr E) Unit
  attemptsMade : Nat
  backoffs : List Nat

/-- syncPdfFiles: fail with the not-found error when the main artifact does
not exist; otherwise fail with the not-stable error when checkFileStable with
three samples at a 500 millisecond interval reports instability; otherwise run
the retry loop.  Existence of the artifact and the outcomes of stat and copy
calls are explicit parameters at the filesystem boundary. -/
def syncPdfFiles (pdfExists : Bool) (poll : Nat → Option (Nat × Nat))
    (attempt : Nat → Except E Unit) (maxRetries : Nat) : SyncResult E :=
  if !pdfExists then ⟨.error .notFound, 0, []⟩
  else if !(checkFileStable poll 3 500) then ⟨.error .notStable, 0, []⟩
  else
    match copyRetry attempt maxRetries with
    | (out, att, ds) => ⟨out.mapError .copyFailed, att, ds⟩

example :
    copyRetry (fun i => (Except.error (100 + i) : Except Nat Unit)) 3
      = (.error 102, 3, [500, 1000]) := rfl
example :
    copyRetry (fun i => if i = 2 then Except.ok () else (Except.error i : Except Nat Unit)) 3
      = (.ok (), 3, [500, 1000]) := rfl
example :
    copyRetry (fun _ => (Except.ok () : Except Nat Unit)) 3 = (.ok (), 1, []) := rfl

/- ================= Diff invocation adapter (executePythonDiff) ================= -/

/-- The failures of executePythonDiff: the external tool reported an error
(with the text the promise is rejected with), or no artifact lines remained. -/
inductive DiffErr where
  | toolErr (msg : List Char)
  | noDifferences
deriving DecidableEq

/-- Whitespace removed by JavaScript String.prototype.trim, at the characters
a command-line tool emits (space, tab, line feed, carriage return, vertical
tab, form feed). -/
def isJsWs (c : Char) : Bool :=
  c = ' ' || c = '\t' || c = '\n' || c = '\r' || c = '\x0b' || c = '\x0c'

/-- stdout.trim(): leading and trailing whitespace removed. -/
def trimJs (s : List Char) : List Char :=
  ((s.dropWhile isJsWs).reverse.dropWhile isJsWs).reverse

/-- The artifact filename suffix retained by the adapter. -/
def pngSuffix : List Char := strL ".png"

/-- The exec callback of executePythonDiff, as a function of what the child
process reported: when the process reported an error, reject with stderr, or
with the error message when stderr is empty; otherwise split the trimmed
standard output on newlines, retain the lines ending in .png, and reject with
the no-differences error when none remain. -/
def executePythonDiff (procError : Option (List Char)) (stdout stderr : List Char) :
    Except DiffErr (List (List Char)) :=
  match procError with
  | some msg => .error (.toolErr (if stderr.isEmpty then msg else stderr))
  | none =>
    let images := ((trimJs stdout).splitOn '\n').filter (fun line => decide (pngSuffix <:+ line))
    if images.isEmpty then .error .noDifferences else .ok images

example :
    executePythonDiff none (strL "p1.png\njunk\np2.png\n") (strL "")
      = .ok [strL "p1.png", strL "p2.png"] := rfl
example :
    executePythonDiff none (strL "nothing") (strL "") = .error .noDifferences := rfl
example :
    executePythonDiff (some (strL "boom")) (strL "p1.png") (strL "err")
      = .error (.toolErr (strL "err")) := rfl
example :
    executePythonDiff (some (strL "boom")) (strL "p1.png") (strL "")
      = .error (.toolErr (strL "boom")) := rfl

/- ================= Path derivation helpers ================= -/

/-- ASCII lowercasing, the effect of the case-insensitive regex flag on the
letters of the anchored extension patterns. -/
def lowerA (c : Char) : Char :=
  if 'A' ≤ c ∧ c ≤ 'Z' then Char.ofNat (c.toNat + 32) else c

/-- Does the path end with the given lowercase suffix, compared
case-insensitively: the anchored case-insensitive extension regexes of the
helper functions match exactly this. -/
def hasSuffixCI (suf p : List Char) : Bool :=
  decide (suf.length ≤ p.length) && decide ((p.drop (p.length - suf.length)).map lowerA = suf)

/-- getMainPdfPath: the anchored case-insensitive .tex suffix replaced by
.pdf, other paths unchanged. -/
def getMainPdfPath (p : List Char) : List Char :=
  if hasSuffixCI (strL ".tex") p then p.take (p.length - 4) ++ strL ".pdf" else p

/-- getDrawPdfPath: an anchored case-insensitive .tex or .pdf suffix replaced
by the draft suffix followed by the artifact extension. -/
def getDrawPdfPath (p : List Char) : List Char :=
  if hasSuffixCI (strL ".tex") p || hasSuffixCI (strL ".pdf") p then
    p.take (p.length - 4) ++ strL "_draw.pdf"
  else p

/-- Modelled from the spec: re-deriving back by swapping extensions, the
reverse direction of the round-trip property; the source has no such inverse
function, it is the swap of the artifact extension back to the source
extension, written like getMainPdfPath with the two extensions exchanged. -/
def pdfToTexPath (p : List Char) : List Char :=
  if hasSuffixCI (strL ".pdf") p then p.take (p.length - 4) ++ strL ".tex" else p

example : getMainPdfPath (strL "dir/paper.tex") = strL "dir/paper.pdf" := by decide
example : getMainPdfPath (strL "dir/paper.TeX") = strL "dir/paper.pdf" := by decide
example : getDrawPdfPath (strL "dir/paper.pdf") = strL "dir/paper_draw.pdf" := by decide
example : getDrawPdfPath (strL "dir/paper.tex") = strL "dir/paper_draw.pdf" := by decide

/- ================= Anchor registry (setupAnchorSystem) ================= -/

/-- The anchor registry: the anchorWatchers map as an association list from
watched path to a watcher identifier, with a counter supplying fresh
identifiers for newly created watchers. -/
structure AnchorState where
  watchers : List (List Char × Nat)
  nextId : Nat
deriving DecidableEq

/-- anchorWatchers.get: the identifier registered for a path, if any. -/
def lookupW : List (List Char × Nat) → List Char → Option Nat
  | [], _ => none
  | (q, w) :: rest, p => if q = p then some w else lookupW rest p

/-- anchorWatchers.delete: remove the entry registered for a path. -/
def eraseW : List (List Char × Nat) → List Char → List (List Char × Nat)
  | [], _ => []
  | (q, w) :: rest, p => if q = p then rest else (q, w) :: eraseW rest p

/-- Number of registry entries held for a path. -/
def countW (ws : List (List Char × Nat)) (p : List Char) : Nat :=
  (ws.filter (fun e => decide (e.1 = p))).length

/-- setupAnchorSystem as a transformation of the registry: with the marker
gone and a watcher registered for the derived draft path, dispose it (its
identifier is returned in the disposal list) and remove its entry; with the
marker gone and nothing registered, do nothing; with the marker present,
return early when the bundled comparison script is missing, otherwise create
and register a watcher only when none is registered for the path yet.  The
document is represented by its path and by whether its text contains the
marker; availability of the script is the explicit scriptOk boundary input. -/
def setupAnchorSystem (scriptOk hasAnchor : Bool) (texPath : List Char)
    (st : AnchorState) : AnchorState × List Nat :=
  let drawPdf := getDrawPdfPath texPath
  match hasAnchor, lookupW st.watchers drawPdf with
  | false, some w => (⟨eraseW st.watchers drawPdf, st.nextId⟩, [w])
  | false, none => (st, [])
  | true, existing =>
    if !scriptOk then (st, [])
    else if existing.isSome then (st, [])
    else (⟨st.watchers ++ [(drawPdf, st.nextId)], st.nextId + 1⟩, [])

example :
    setupAnchorSystem true true (strL "a.tex") ⟨[], 0⟩
      = (⟨[(strL "a_draw.pdf", 0)], 1⟩, []) := by decide
example :
    setupAnchorSystem true false (strL "a.tex") ⟨[(strL "a_draw.pdf", 0)], 1⟩
      = (⟨[], 1⟩, [0]) := by decide

/- ================= List decomposition helpers ================= -/

/-- A prefix of a concatenation is a prefix of the left part or extends it. -/
theorem prefixAppendCases {α : Type} {p s t : List α} (h : p <+: s ++ t) :
    p <+: s ∨ ∃ q, p = s ++ q ∧ q <+: t := by
  induction s generalizing p with
  | nil => exact Or.inr ⟨p, rfl, h⟩
  | cons a s ih =>
    cases p with
    | nil => exact Or.inl ⟨a :: s, rfl⟩
    | cons b p =>
      obtain ⟨r, hr⟩ := h
      simp only [List.cons_append] at hr
      injection hr with hb hr
      subst hb
      rcases ih ⟨r, hr⟩ with hp | ⟨q, hq1, hq2⟩
      · obtain ⟨u, hu⟩ := hp
        exact Or.inl ⟨u, by simp [List.cons_append, hu]⟩
      · exact Or.inr ⟨q, by simp [hq1], hq2⟩

/-- A pattern inside a :: L starts at the head or lies inside L. -/
theorem infixConsSplit {α : Type} {p L : List α} {a : α} (h : p <:+: a :: L) :
    p <+: a :: L ∨ p <:+: L := by
  obtain ⟨u, v, huv⟩ := h
  cases u with
  | nil => exact Or.inl ⟨v, by simpa using huv⟩
  | cons c u =>
    simp only [List.cons_append] at huv
    injection huv with hc hrest
    exact Or.inr ⟨u, v, hrest⟩

/-- Occurrences inside a list also occur after consing a head. -/
theorem infixConsOf {α : Type} {p L : List α} (a : α) (h : p <:+: L) : p <:+: a :: L := by
  obtain ⟨u, v, huv⟩ := h
  exact ⟨a :: u, v, by rw [← huv]; simp⟩

/-- Suffixes survive consing a head onto the ambient list. -/
theorem suffixConsOf {α : Type} {p s : List α} (a : α) (h : p <:+ s) : p <:+ a :: s := by
  obtain ⟨w, hw⟩ := h
  exact ⟨a :: w, by rw [← hw]; simp⟩

/-- A pattern occurring in s ++ t occurs in s, occurs in t, or straddles the
boundary: it splits into a nonempty suffix piece of s followed by a nonempty
prefix piece of t. -/
theorem infixAppendSplit {α : Type} {p s t : List α} (h : p <:+: s ++ t) :
    p <:+: s ∨ p <:+: t ∨
      ∃ p1 p2, p = p1 ++ p2 ∧ p1 ≠ [] ∧ p2 ≠ [] ∧ p1 <:+ s ∧ p2 <+: t := by
  induction s generalizing p with
  | nil => exact Or.inr (Or.inl (by simpa using h))
  | cons a s ih =>
    rcases infixConsSplit (by simpa using h) with hp | hinf
    · rcases prefixAppendCases (s := a :: s) (t := t) (by simpa using hp) with h1 | ⟨q, hq1, hq2⟩
      · obtain ⟨r, hr⟩ := h1
        exact Or.inl ⟨[], r, by simpa using hr⟩
      · cases q with
        | nil =>
          refine Or.inl ⟨[], [], ?_⟩
          rw [hq1]
          simp
        | cons c q =>
          exact Or.inr (Or.inr ⟨a :: s, c :: q, hq1, by simp, by simp, ⟨[], rfl⟩, hq2⟩)
    · rcases ih hinf with h1 | h2 | ⟨p1, p2, hp12, hne1, hne2, hsuf, hpre⟩
      · exact Or.inl (infixConsOf a h1)
      · exact Or.inr (Or.inl h2)
      · exact Or.inr (Or.inr ⟨p1, p2, hp12, hne1, hne2, suffixConsOf a hsuf, hpre⟩)

/-- A nonempty prefix of a list pins down the head of the list. -/
theorem headOfPrefix {p s : List Char} (hne : p ≠ []) (h : p <+: s) :
    ∃ c, s.head? = some c ∧ c ∈ p := by
  obtain ⟨w, hw⟩ := h
  cases p with
  | nil => exact absurd rfl hne
  | cons c r => exact ⟨c, by rw [← hw]; rfl, List.mem_cons_self c r⟩

/-- A nonempty suffix of a list pins down the last element of the list,
read off as the head of the reversed list. -/
theorem revHeadOfSuffix {p s : List Char} (hne : p ≠ []) (h : p <:+ s) :
    ∃ c, s.reverse.head? = some c ∧ c ∈ p := by
  obtain ⟨w, hw⟩ := h
  cases hp : p.reverse with
  | nil => exact absurd (by simpa using hp) hne
  | cons c r =>
    refine ⟨c, ?_, ?_⟩
    · rw [← hw, List.reverse_append, hp]
      rfl
    · have hc : c ∈ p.reverse := by
        rw [hp]
        exact List.mem_cons_self c r
      simpa using hc

/-- The reversed head survives prepending on the left. -/
theorem revHeadAppend {A B : List Char} {c : Char} (h : B.reverse.head? = some c) :
    (A ++ B).reverse.head? = some c := by
  rw [List.reverse_append]
  cases hb : B.reverse with
  | nil => rw [hb] at h; simp at h
  | cons d r =>
    rw [hb] at h
    simpa using h

/-- Head of a separator-join of a nonempty list of segments. -/
theorem joinSepHead {sep x : List Char} {xs : List (List Char)} {c : Char}
    (hx : x.head? = some c) : (joinSep sep (x :: xs)).head? = some c := by
  cases xs with
  | nil => simpa [joinSep] using hx
  | cons y ys =>
    cases x with
    | nil => simp at hx
    | cons d r => simpa [joinSep] using hx

/-- Reversed head (last element) of a separator-join when every segment ends
in the same character. -/
theorem joinSepRevHead {sep : List Char} {c : Char} :
    ∀ {x : List Char} {xs : List (List Char)},
      (∀ y ∈ x :: xs, y.reverse.head? = some c) →
      (joinSep sep (x :: xs)).reverse.head? = some c := by
  intro x xs
  induction xs generalizing x with
  | nil =>
    intro h
    simpa [joinSep] using h x (by simp)
  | cons y ys ih =>
    intro h
    have hrec := ih (x := y) (fun z hz => h z (by simpa using Or.inr hz))
    show ((x ++ sep ++ joinSep sep (y :: ys)).reverse).head? = some c
    exact revHeadAppend hrec

/-- Central no-reintroduction lemma: rejoining marker-free segments with a
nonempty marker-free separator whose first and last characters do not occur in
the pattern cannot contain the pattern, because an occurrence would have to
lie in a segment, lie in the separator, or straddle a boundary and therefore
contain the boundary character of the separator. -/
theorem notInfixJoinSep {pat sep : List Char} {segs : List (List Char)}
    (hpat : pat ≠ []) (hsepNe : sep ≠ [])
    (hsegs : ∀ s ∈ segs, ¬ pat <:+: s)
    (hsep : ¬ pat <:+: sep)
    (hHead : ∀ c, sep.head? = some c → c ∉ pat)
    (hLast : ∀ c, sep.reverse.head? = some c → c ∉ pat) :
    ¬ pat <:+: joinSep sep segs := by
  induction segs with
  | nil =>
    intro h
    obtain ⟨u, v, huv⟩ := h
    simp only [joinSep, List.append_eq_nil] at huv
    exact hpat huv.1.2
  | cons s ss ih =>
    cases ss with
    | nil => simpa [joinSep] using hsegs s (by simp)
    | cons s2 ss2 =>
      intro h
      have hsplit : pat <:+: s ++ (sep ++ joinSep sep (s2 :: ss2)) := by
        have : joinSep sep (s :: s2 :: ss2) = s ++ sep ++ joinSep sep (s2 :: ss2) := rfl
        rw [this, List.append_assoc] at h
        exact h
      rcases infixAppendSplit hsplit with h1 | h2 | ⟨p1, p2, hp12, hne1, hne2, hsuf, hpre⟩
      · exact hsegs s (by simp) h1
      · rcases infixAppendSplit h2 with g1 | g2 | ⟨q1, q2, hq12, gne1, gne2, gsuf, gpre⟩
        · exact hsep g1
        · exact ih (fun x hx => hsegs x (by simp [hx])) g2
        · obtain ⟨c, hc1, hc2⟩ := revHeadOfSuffix gne1 gsuf
          exact hLast c hc1 (by rw [hq12]; exact List.mem_append_left q2 hc2)
      · obtain ⟨c, hc1, hc2⟩ := headOfPrefix hne2 hpre
        have hsh : sep.head? = some c := by
          cases sep with
          | nil => exact absurd rfl hsepNe
          | cons d sep2 => simpa using hc1
        exact hHead c hsh (by rw [hp12]; exact List.mem_append_right p1 hc2)

/- ================= Properties of the marker segmentation ================= -/

/-- The fuel is irrelevant once it covers the length of the text. -/
theorem anchorSegsF_congr :
    ∀ f1 f2 t, t.length ≤ f1 → t.length ≤ f2 → anchorSegsF f1 t = anchorSegsF f2 t := by
  intro f1
  induction f1 with
  | zero =>
    intro f2 t h1 _
    have ht : t = [] := List.eq_nil_of_length_eq_zero (by omega)
    subst ht
    cases f2 <;> simp [anchorSegsF]
  | succ f1 ih =>
    intro f2 t h1 h2
    cases t with
    | nil => cases f2 <;> simp [anchorSegsF]
    | cons c rest =>
      cases f2 with
      | zero => simp at h2
      | succ f2 =>
        simp only [anchorSegsF]
        by_cases hm : anchorMarker <+: (c :: rest)
        · simp only [if_pos hm]
          rw [ih f2 (rest.drop 7) (by simp at h1 ⊢; omega) (by simp at h2 ⊢; omega)]
        · simp only [if_neg hm]
          rw [ih f2 rest (by simp at h1; omega) (by simp at h2; omega)]

/-- The segmentation is never empty, and its first segment is a prefix of the
text. -/
theorem anchorSegsF_shape :
    ∀ fuel t, ∃ s ss, anchorSegsF fuel t = s :: ss ∧ s <+: t := by
  intro fuel
  induction fuel with
  | zero =>
    intro t
    cases t with
    | nil => exact ⟨[], [], by simp [anchorSegsF], ⟨[], rfl⟩⟩
    | cons c r => exact ⟨c :: r, [], by simp [anchorSegsF], ⟨[], by simp⟩⟩
  | succ fuel ih =>
    intro t
    cases t with
    | nil => exact ⟨[], [], by simp [anchorSegsF], ⟨[], rfl⟩⟩
    | cons c rest =>
      by_cases hm : anchorMarker <+: (c :: rest)
      · exact ⟨[], anchorSegsF fuel (rest.drop 7), by simp [anchorSegsF, hm], ⟨c :: rest, rfl⟩⟩
      · obtain ⟨s, ss, hs, hsp⟩ := ih rest
        refine ⟨c :: s, ss, ?_, ?_⟩
        · simp [anchorSegsF, hm, hs]
        · obtain ⟨u, hu⟩ := hsp
          exact ⟨u, by rw [← hu]; rfl⟩

/-- No segment produced by the scan contains a marker occurrence: the scan
finds every leftmost occurrence, so the in-between remnants are marker-free. -/
theorem anchorSegsF_clean :
    ∀ fuel t, t.length ≤ fuel → ∀ s ∈ anchorSegsF fuel t, ¬ anchorMarker <:+: s := by
  intro fuel
  induction fuel with
  | zero =>
    intro t ht s hs
    have htn : t = [] := List.eq_nil_of_length_eq_zero (by omega)
    subst htn
    simp only [anchorSegsF, List.mem_singleton] at hs
    subst hs
    decide
  | succ fuel ih =>
    intro t ht s hs
    cases t with
    | nil =>
      simp only [anchorSegsF, List.mem_singleton] at hs
      subst hs
      decide
    | cons c rest =>
      have hlen : rest.length ≤ fuel := by simp at ht; omega
      by_cases hm : anchorMarker <+: (c :: rest)
      · rw [show anchorSegsF (fuel + 1) (c :: rest) = [] :: anchorSegsF fuel (rest.drop 7) from
          by simp [anchorSegsF, hm]] at hs
        rcases List.mem_cons.mp hs with rfl | hs2
        · decide
        · exact ih (rest.drop 7) (by simp; omega) s hs2
      · obtain ⟨s0, ss0, hseq, hsp⟩ := anchorSegsF_shape fuel rest
        rw [show anchorSegsF (fuel + 1) (c :: rest) = (c :: s0) :: ss0 from
          by simp [anchorSegsF, hm, hseq]] at hs
        rcases List.mem_cons.mp hs with rfl | hs2
        · intro hinf
          rcases infixConsSplit hinf with hp | hinf2
          · apply hm
            obtain ⟨u, hu⟩ := hp
            obtain ⟨w, hw⟩ := hsp
            refine ⟨u ++ w, ?_⟩
            rw [← List.append_assoc, hu]
            rw [show (c :: s0) ++ w = c :: (s0 ++ w) from rfl, hw]
          · exact ih rest hlen s0 (by rw [hseq]; exact List.mem_cons_self s0 ss0) hinf2
        · exact ih rest hlen s (by rw [hseq]; exact List.mem_cons.mpr (Or.inr hs2))

/-- Re-joining the segments with the marker itself reconstructs the original
text: the segmentation is exactly the text between the scanned occurrences. -/
theorem anchorSegsF_reconstruct :
    ∀ fuel t, t.length ≤ fuel → joinSep anchorMarker (anchorSegsF fuel t) = t := by
  intro fuel
  induction fuel with
  | zero =>
    intro t ht
    have htn : t = [] := List.eq_nil_of_length_eq_zero (by omega)
    subst htn
    simp [anchorSegsF, joinSep]
  | succ fuel ih =>
    intro t ht
    cases t with
    | nil => simp [anchorSegsF, joinSep]
    | cons c rest =>
      have hlen : rest.length ≤ fuel := by simp at ht; omega
      by_cases hm : anchorMarker <+: (c :: rest)
      · rw [show anchorSegsF (fuel + 1) (c :: rest) = [] :: anchorSegsF fuel (rest.drop 7) from
          by simp [anchorSegsF, hm]]
        obtain ⟨s, ss, hseq, _⟩ := anchorSegsF_shape fuel (rest.drop 7)
        rw [hseq]
        rw [show joinSep anchorMarker ([] :: s :: ss)
            = anchorMarker ++ joinSep anchorMarker (s :: ss) from rfl]
        rw [← hseq, ih (rest.drop 7) (by simp; omega)]
        obtain ⟨u, hu⟩ := hm
        have hu7 : rest.drop 7 = u := by
          have h1 : (anchorMarker ++ u).drop 8 = u := by
            rw [show (8 : Nat) = anchorMarker.length from rfl]
            exact List.drop_left anchorMarker u
          rw [← h1, hu]
          rfl
        rw [hu7, hu]
      · obtain ⟨s0, ss0, hseq, _⟩ := anchorSegsF_shape fuel rest
        rw [show anchorSegsF (fuel + 1) (c :: rest) = (c :: s0) :: ss0 from
          by simp [anchorSegsF, hm, hseq]]
        have hjoin : joinSep anchorMarker ((c :: s0) :: ss0)
            = c :: joinSep anchorMarker (s0 :: ss0) := by
          cases ss0 <;> simp [joinSep]
        rw [hjoin, ← hseq, ih rest hlen]

/-- A marker-free text is a single segment. -/
theorem anchorSegsF_of_not_infix :
    ∀ fuel t, t.length ≤ fuel → ¬ anchorMarker <:+: t → anchorSegsF fuel t = [t] := by
  intro fuel
  induction fuel with
  | zero =>
    intro t ht _
    have htn : t = [] := List.eq_nil_of_length_eq_zero (by omega)
    subst htn
    simp [anchorSegsF]
  | succ fuel ih =>
    intro t ht hni
    cases t with
    | nil => simp [anchorSegsF]
    | cons c rest =>
      have hm : ¬ anchorMarker <+: (c :: rest) := by
        intro hp
        obtain ⟨u, hu⟩ := hp
        exact hni ⟨[], u, by simpa using hu⟩
      have hrest : anchorSegsF fuel rest = [rest] :=
        ih rest (by simp at ht; omega) (fun hinf => hni (infixConsOf c hinf))
      simp [anchorSegsF, hm, hrest]

/- ================= Figure content lemmas ================= -/

/-- The opening brace character of the figure template. -/
def braceL : Char := Char.ofNat 123

/-- The closing brace character of the figure template. -/
def braceR : Char := Char.ofNat 125

/-- A figure block starts with the backslash of its template. -/
theorem figBlockHeadChar (r : List Char) : (figBlock r).head? = some '\\' := rfl

/-- A figure block ends with the closing brace of its template. -/
theorem figBlockRevHeadChar (r : List Char) : (figBlock r).reverse.head? = some braceR := by
  show ((figPre ++ r) ++ figPost).reverse.head? = some braceR
  exact revHeadAppend (by decide)

/-- A figure block whose inserted relative path is marker-free is marker-free:
the template pieces contain no marker, and an occurrence straddling a template
boundary would contain a curly brace, which is not a marker character. -/
theorem figBlockClean (r : List Char) (hr : ¬ anchorMarker <:+: r) :
    ¬ anchorMarker <:+: figBlock r := by
  intro h
  have h2 : anchorMarker <:+: figPre ++ (r ++ figPost) := by
    simp only [figBlock] at h
    rw [List.append_assoc] at h
    exact h
  rcases infixAppendSplit h2 with h1 | h3 | ⟨p1, p2, hp12, hne1, hne2, hsuf, hpre⟩
  · exact (by decide : ¬ anchorMarker <:+: figPre) h1
  · rcases infixAppendSplit h3 with g1 | g2 | ⟨q1, q2, hq12, gne1, gne2, gsuf, gpre⟩
    · exact hr g1
    · exact (by decide : ¬ anchorMarker <:+: figPost) g2
    · obtain ⟨c, hc1, hc2⟩ := headOfPrefix gne2 gpre
      have hcR : braceR = c := by
        have hfp : figPost.head? = some braceR := by decide
        have := hfp.symm.trans hc1
        injection this
      have hcm : c ∈ anchorMarker := by
        rw [hq12]
        exact List.mem_append_right q1 hc2
      rw [← hcR] at hcm
      exact absurd hcm (by decide)
  · obtain ⟨c, hc1, hc2⟩ := revHeadOfSuffix hne1 hsuf
    have hcL : braceL = c := by
      have hfp : figPre.reverse.head? = some braceL := by decide
      have := hfp.symm.trans hc1
      injection this
    have hcm : c ∈ anchorMarker := by
      rw [hp12]
      exact List.mem_append_left p2 hc2
    rw [← hcL] at hcm
    exact absurd hcm (by decide)

/-- The generated figures content is marker-free whenever every artifact's
normalized relative path is. -/
theorem figuresTextClean (po : PathOps) (texPath : List Char) (images : List (List Char))
    (h : ∀ img ∈ images, ¬ anchorMarker <:+: relFigPath po texPath img) :
    ¬ anchorMarker <:+: figuresText po texPath images := by
  show ¬ anchorMarker <:+: joinSep blankLine (images.map fun img => figBlock (relFigPath po texPath img))
  apply notInfixJoinSep (by decide) (by decide) ?_ (by decide) ?_ ?_
  · intro s hs
    obtain ⟨img, himg, rfl⟩ := List.mem_map.mp hs
    exact figBlockClean _ (h img himg)
  · intro c hc
    have hb : blankLine.head? = some '\n' := by decide
    rw [hb] at hc
    injection hc with hc
    subst hc
    decide
  · intro c hc
    have hb : blankLine.reverse.head? = some '\n' := by decide
    rw [hb] at hc
    injection hc with hc
    subst hc
    decide

/-- Evaluation of updateLatexDocument when any marker present and the batch
result is marker-free: the cleanup edit finds nothing to remove, the shortened
text equals the batch result, and the written range covers the whole text, so
the final document is exactly the batch result. -/
theorem updateLatexDocument_eq_of_clean (po : PathOps) (texPath : List Char)
    (images : List (List Char)) (text : List Char)
    (hc : ¬ countAnchor text = 0)
    (hT1 : ¬ anchorMarker <:+: joinSep (figuresText po texPath images) (anchorSegs text)) :
    updateLatexDocument po texPath images text
      = .ok (joinSep (figuresText po texPath images) (anchorSegs text)) := by
  have hsingle : anchorSegs (joinSep (figuresText po texPath images) (anchorSegs text))
      = [joinSep (figuresText po texPath images) (anchorSegs text)] :=
    anchorSegsF_of_not_infix _ _ le_rfl hT1
  simp only [updateLatexDocument, if_neg hc]
  rw [hsingle]
  rw [show joinSep ([] : List Char)
      [joinSep (figuresText po texPath images) (anchorSegs text)]
      = joinSep (figuresText po texPath images) (anchorSegs text) from rfl]
  rw [List.drop_length, List.append_nil]

/-- Concrete stand-in for the external path module used by the concrete splice
evaluations: the document directory is the current directory and artifact
paths are already relative. -/
def plainPathOps : PathOps :=
  { dirname := fun _ => strL ".", relative := fun _ img => img }

/-- Claim C1 (amended): for a document with at least one scanned marker
occurrence and a nonempty artifact list, provided no artifact's normalized
relative path itself contains the marker, one run of updateLatexDocument
produces exactly the in-between segments of the original text rejoined with
the identical figures block, that result contains zero marker occurrences,
there is exactly one block per scanned occurrence (segment count is occurrence
count plus one, and rejoining the segments with the marker itself restores the
original text), and the block is the per-artifact figure entries in artifact
order joined by a blank line. -/
theorem updateLatexDocument_spliceCorrect (po : PathOps) (texPath text : List Char)
    (images : List (List Char))
    (hK : 1 ≤ countAnchor text) (hM : images ≠ [])
    (hclean : ∀ img ∈ images, ¬ anchorMarker <:+: relFigPath po texPath img) :
    updateLatexDocument po texPath images text
      = .ok (joinSep (figuresText po texPath images) (anchorSegs text))
    ∧ ¬ anchorMarker <:+: joinSep (figuresText po texPath images) (anchorSegs text)
    ∧ (anchorSegs text).length = countAnchor text + 1
    ∧ joinSep anchorMarker (anchorSegs text) = text
    ∧ figuresText po texPath images
        = joinSep blankLine (images.map (fun img => figBlock (relFigPath po texPath img))) := by
  cases images with
  | nil => exact absurd rfl hM
  | cons b bs =>
    have hFclean : ¬ anchorMarker <:+: figuresText po texPath (b :: bs) :=
      figuresTextClean po texPath (b :: bs) hclean
    have hFhead : (figuresText po texPath (b :: bs)).head? = some '\\' := by
      show (joinSep blankLine
        (figBlock (relFigPath po texPath b)
          :: bs.map fun img => figBlock (relFigPath po texPath img))).head? = some '\\'
      exact joinSepHead (figBlockHeadChar _)
    have hFne : figuresText po texPath (b :: bs) ≠ [] := by
      intro h0
      rw [h0] at hFhead
      simp at hFhead
    have hFrev : (figuresText po texPath (b :: bs)).reverse.head? = some braceR := by
      show (joinSep blankLine
        (figBlock (relFigPath po texPath b)
          :: bs.map fun img => figBlock (relFigPath po texPath img))).reverse.head? = some braceR
      apply joinSepRevHead
      intro y hy
      rcases List.mem_cons.mp hy with rfl | hy2
      · exact figBlockRevHeadChar _
      · obtain ⟨img, _, rfl⟩ := List.mem_map.mp hy2
        exact figBlockRevHeadChar _
    have hsegsClean : ∀ s ∈ anchorSegs text, ¬ anchorMarker <:+: s :=
      anchorSegsF_clean text.length text le_rfl
    have hT1 : ¬ anchorMarker <:+: joinSep (figuresText po texPath (b :: bs)) (anchorSegs text) := by
      apply notInfixJoinSep (by decide) hFne hsegsClean hFclean ?_ ?_
      · intro c hc
        rw [hFhead] at hc
        injection hc with hc
        subst hc
        decide
      · intro c hc
        rw [hFrev] at hc
        injection hc with hc
        subst hc
        decide
    refine ⟨updateLatexDocument_eq_of_clean po texPath (b :: bs) text (by omega) hT1, hT1, ?_, ?_, rfl⟩
    · obtain ⟨s0, ss0, hseq, _⟩ := anchorSegsF_shape text.length text
      have hseq2 : anchorSegs text = s0 :: ss0 := hseq
      show (anchorSegs text).length = (anchorSegs text).length - 1 + 1
      rw [hseq2]
      simp
    · exact anchorSegsF_reconstruct text.length text le_rfl

/-- Witness for C1: a document with two anchors and one clean artifact path
satisfies all three hypotheses. -/
theorem updateLatexDocument_spliceCorrect_witness :
    (1 ≤ countAnchor (strL "pre %ANCHOR% mid %ANCHOR% post"))
    ∧ (updateLatexDocument plainPathOps (strL "doc.tex") [strL "x.png"]
          (strL "pre %ANCHOR% mid %ANCHOR% post")
        = .ok (joinSep (figuresText plainPathOps (strL "doc.tex") [strL "x.png"])
            (anchorSegs (strL "pre %ANCHOR% mid %ANCHOR% post")))
      ∧ ¬ anchorMarker <:+: joinSep (figuresText plainPathOps (strL "doc.tex") [strL "x.png"])
            (anchorSegs (strL "pre %ANCHOR% mid %ANCHOR% post"))
      ∧ (anchorSegs (strL "pre %ANCHOR% mid %ANCHOR% post")).length
          = countAnchor (strL "pre %ANCHOR% mid %ANCHOR% post") + 1
      ∧ joinSep anchorMarker (anchorSegs (strL "pre %ANCHOR% mid %ANCHOR% post"))
          = strL "pre %ANCHOR% mid %ANCHOR% post"
      ∧ figuresText plainPathOps (strL "doc.tex") [strL "x.png"]
          = joinSep blankLine ([strL "x.png"].map
              (fun img => figBlock (relFigPath plainPathOps (strL "doc.tex") img)))) :=
  ⟨by decide,
   updateLatexDocument_spliceCorrect plainPathOps (strL "doc.tex")
     (strL "pre %ANCHOR% mid %ANCHOR% post") [strL "x.png"]
     (by decide) (by decide) (by decide)⟩

/-- Counterexample for C1 as stated: with an artifact whose relative path
itself contains the marker, the spliced document is not the segments rejoined
with the identical figures block (the cleanup edit shortens the block and the
out-of-range tail of the batch result is left behind), even though the run
succeeds on a document with exactly one marker occurrence. -/
theorem updateLatexDocument_spliceCounterexample :
    (updateLatexDocument plainPathOps (strL "doc.tex") [strL "%ANCHOR%.png"]
        (strL "%ANCHOR%")).toOption.isSome = true
    ∧ (updateLatexDocument plainPathOps (strL "doc.tex") [strL "%ANCHOR%.png"]
        (strL "%ANCHOR%")).toOption
      ≠ some (joinSep (figuresText plainPathOps (strL "doc.tex") [strL "%ANCHOR%.png"])
          (anchorSegs (strL "%ANCHOR%")))
    ∧ countAnchor (strL "%ANCHOR%") = 1 := by
  refine ⟨?_, ?_, ?_⟩ <;> decide

/-- Claim C6: a document with zero marker occurrences makes
updateLatexDocument fail with the no-anchor error before building any
replacement, so no edit is produced. -/
theorem updateLatexDocument_noAnchorRejection (po : PathOps) (texPath : List Char)
    (images : List (List Char)) (text : List Char)
    (h : ¬ anchorMarker <:+: text) :
    updateLatexDocument po texPath images text = .error .noAnchor
    ∧ countAnchor text = 0 := by
  have hseg : anchorSegs text = [text] := anchorSegsF_of_not_infix _ _ le_rfl h
  have hcount : countAnchor text = 0 := by
    show (anchorSegs text).length - 1 = 0
    rw [hseg]
    rfl
  exact ⟨by simp [updateLatexDocument, hcount], hcount⟩

/-- Witness for C6 at a marker-free document. -/
theorem updateLatexDocument_noAnchorRejection_witness :
    updateLatexDocument plainPathOps (strL "doc.tex") [strL "x.png"] (strL "hello world")
      = .error .noAnchor
    ∧ countAnchor (strL "hello world") = 0 :=
  updateLatexDocument_noAnchorRejection plainPathOps (strL "doc.tex") [strL "x.png"]
    (strL "hello world") (by decide)

/- ================= Stability detector theorems ================= -/

/-- The polling loop, started at index i with the last observation before i,
succeeds exactly when some in-budget poll repeats the last observation made
before it (with the (0, 0) initialization standing in before the first
success). -/
theorem stableLoop_iff (poll : Nat → Option (Nat × Nat)) :
    ∀ fuel i0, stableLoop poll fuel (lastObs poll i0) i0 = true
      ↔ ∃ i, i0 ≤ i ∧ i < i0 + fuel ∧ poll i = some (lastObs poll i) := by
  intro fuel
  induction fuel with
  | zero =>
    intro i0
    simp only [stableLoop]
    constructor
    · intro h
      exact absurd h (by simp)
    · rintro ⟨i, h1, h2, _⟩
      omega
  | succ fuel ih =>
    intro i0
    cases hp : poll i0 with
    | some cur =>
      by_cases hc : cur = lastObs poll i0
      · simp only [stableLoop, hp, if_pos hc, true_iff]
        exact ⟨i0, le_refl i0, by omega, by rw [hp, hc]⟩
      · simp only [stableLoop, hp, if_neg hc]
        have hl : lastObs poll (i0 + 1) = cur := by simp [lastObs, hp]
        rw [← hl, ih (i0 + 1)]
        constructor
        · rintro ⟨i, h1, h2, h3⟩
          exact ⟨i, by omega, by omega, h3⟩
        · rintro ⟨i, h1, h2, h3⟩
          refine ⟨i, ?_, by omega, h3⟩
          rcases Nat.eq_or_lt_of_le h1 with rfl | hlt
          · rw [hp] at h3
            injection h3 with h3
            exact absurd h3 hc
          · omega
    | none =>
      simp only [stableLoop, hp]
      have hl : lastObs poll (i0 + 1) = lastObs poll i0 := by simp [lastObs, hp]
      rw [← hl, ih (i0 + 1)]
      constructor
      · rintro ⟨i, h1, h2, h3⟩
        exact ⟨i, by omega, by omega, h3⟩
      · rintro ⟨i, h1, h2, h3⟩
        refine ⟨i, ?_, by omega, h3⟩
        rcases Nat.eq_or_lt_of_le h1 with rfl | hlt
        · rw [hp] at h3
          exact absurd h3 (by simp)
        · omega

/-- Claim C3 (amended): checkFileStable returns true exactly when some poll
within the sampleCount budget successfully observes the same (size, mtime)
pair as the last successful observation before it, where before the first
successful observation that last pair is the (0, 0) initialization of
lastSize and lastMtime; in particular it returns false when every poll fails,
and a failing poll consumes a poll slot without resetting the pair. -/
theorem checkFileStable_consecutiveSampling (poll : Nat → Option (Nat × Nat))
    (checkCount intervalMs : Nat) :
    (checkFileStable poll checkCount intervalMs = true
      ↔ ∃ i, i < checkCount ∧ poll i = some (lastObs poll i))
    ∧ ((∀ i, i < checkCount → poll i = none)
        → checkFileStable poll checkCount intervalMs = false) := by
  have hbase : checkFileStable poll checkCount intervalMs
      = stableLoop poll checkCount (lastObs poll 0) 0 := rfl
  constructor
  · rw [hbase, stableLoop_iff poll checkCount 0]
    constructor
    · rintro ⟨i, _, h2, h3⟩
      exact ⟨i, by omega, h3⟩
    · rintro ⟨i, h1, h2⟩
      exact ⟨i, by omega, by omega, h2⟩
  · intro hall
    rw [hbase]
    cases hres : stableLoop poll checkCount (lastObs poll 0) 0 with
    | false => rfl
    | true =>
      obtain ⟨i, _, h2, h3⟩ := (stableLoop_iff poll checkCount 0).mp hres
      rw [hall i (by omega)] at h3
      exact absurd h3 (by simp)

/-- Witness for C3: with every poll failing in a budget of two, the check
reports unstable; with the second poll repeating the first, it reports stable. -/
theorem checkFileStable_consecutiveSampling_witness :
    checkFileStable (fun _ => none) 2 200 = false
    ∧ checkFileStable (fun _ => some (7, 9)) 3 200 = true :=
  ⟨(checkFileStable_consecutiveSampling (fun _ => none) 2 200).2 (fun _ _ => rfl),
   (checkFileStable_consecutiveSampling (fun _ => some (7, 9)) 3 200).1.mpr
     ⟨1, by omega, by simp [lastObs]⟩⟩

/-- Counterexample for C3 as stated: with a single poll slot there cannot be
two consecutive polled samples at all, yet a first sample equal to the
(0, 0) initialization of lastSize and lastMtime makes checkFileStable return
true after one sample. -/
theorem checkFileStable_sentinelCounterexample :
    checkFileStable (fun _ => some (0, 0)) 1 200 = true
    ∧ ¬ ∃ i : Nat, i + 1 < 1 := by
  constructor
  · rfl
  · rintro ⟨i, h⟩
    omega

/-- The polling loop only inspects polls at indices in its remaining budget. -/
theorem stableLoop_congr (poll poll2 : Nat → Option (Nat × Nat)) :
    ∀ fuel i0 last, (∀ i, i0 ≤ i → i < i0 + fuel → poll i = poll2 i) →
      stableLoop poll fuel last i0 = stableLoop poll2 fuel last i0 := by
  intro fuel
  induction fuel with
  | zero => intro i0 last _; rfl
  | succ fuel ih =>
    intro i0 last h
    have hp2 : poll2 i0 = poll i0 := (h i0 (le_refl i0) (by omega)).symm
    show (match poll i0 with
      | some cur => if cur = last then true else stableLoop poll fuel cur (i0 + 1)
      | none => stableLoop poll fuel last (i0 + 1))
      = (match poll2 i0 with
      | some cur => if cur = last then true else stableLoop poll2 fuel cur (i0 + 1)
      | none => stableLoop poll2 fuel last (i0 + 1))
    rw [hp2]
    cases poll i0 with
    | some cur =>
      by_cases hc : cur = last
      · simp [hc]
      · simp only [if_neg hc]
        exact ih (i0 + 1) cur (fun i h1 h2 => h i (by omega) (by omega))
    | none => exact ih (i0 + 1) last (fun i h1 h2 => h i (by omega) (by omega))

/-- Claim C10: checkFileStable is total at its interface: it always returns a
boolean determined by at most checkCount metadata polls (and by nothing else,
in particular not by the sleep interval), and a failing poll merely consumes
its iteration, leaving the last-observed pair unchanged. -/
theorem checkFileStable_total (poll poll2 : Nat → Option (Nat × Nat))
    (checkCount intervalMs intervalMs2 fuel i0 : Nat) (last : Nat × Nat) :
    ((∀ i, i < checkCount → poll i = poll2 i) →
      checkFileStable poll checkCount intervalMs
        = checkFileStable poll2 checkCount intervalMs2)
    ∧ (poll i0 = none →
      stableLoop poll (fuel + 1) last i0 = stableLoop poll fuel last (i0 + 1)) := by
  constructor
  · intro h
    exact stableLoop_congr poll poll2 checkCount 0 (0, 0) (fun i _ h2 => h i (by omega))
  · intro h
    simp [stableLoop, h]

/-- Witness for C10: two polls that agree on the two in-budget indices give
the same verdict under different intervals, and a failing first poll reduces
to the loop on the remaining budget. -/
theorem checkFileStable_total_witness :
    checkFileStable (fun _ => none) 2 200
      = checkFileStable (fun i => if 2 ≤ i then some (1, 1) else none) 2 500
    ∧ stableLoop (fun _ => none) 2 (0, 0) 0 = stableLoop (fun _ => none) 1 (0, 0) 1 :=
  ⟨(checkFileStable_total (fun _ => none) (fun i => if 2 ≤ i then some (1, 1) else none)
      2 200 500 0 0 (0, 0)).1 (by decide),
   (checkFileStable_total (fun _ => none) (fun _ => none) 2 200 500 1 0 (0, 0)).2 rfl⟩

/- ================= Debounced watcher theorems ================= -/

/-- Invariant tying the phase to the counters: exactly one execution is in
flight while running, none otherwise. -/
def WatchInv (st : WatchSt) : Prop :=
  (st.phase = WatchPhase.running → st.started = st.finished + 1)
  ∧ (st.phase ≠ WatchPhase.running → st.started = st.finished)

/-- The invariant is preserved by every event. -/
theorem watchStep_inv {st : WatchSt} (h : WatchInv st) (ev : WatchEv) :
    WatchInv (watchStep st ev) := by
  obtain ⟨ph, s, f⟩ := st
  cases ph <;> cases ev <;>
    simp only [watchStep, WatchInv] at h ⊢ <;>
    constructor <;> intro hph <;> simp_all

/-- The invariant is preserved by every event sequence. -/
theorem watchRun_inv {st : WatchSt} (h : WatchInv st) (evs : List WatchEv) :
    WatchInv (watchRun st evs) := by
  induction evs generalizing st with
  | nil => exact h
  | cons ev evs ih => exact ih (watchStep_inv h ev)

/-- Notifications arriving while the callback is executing are dropped. -/
theorem watchRun_notify_running (s f : Nat) :
    ∀ n, watchRun ⟨WatchPhase.running, s, f⟩ (List.replicate n WatchEv.notify)
      = ⟨WatchPhase.running, s, f⟩ := by
  intro n
  induction n with
  | zero => rfl
  | succ n ih => simpa [watchRun, List.replicate_succ, List.foldl_cons] using ih

/-- Notifications arriving during the cooldown are dropped. -/
theorem watchRun_notify_cooling (s f : Nat) :
    ∀ n, watchRun ⟨WatchPhase.cooling, s, f⟩ (List.replicate n WatchEv.notify)
      = ⟨WatchPhase.cooling, s, f⟩ := by
  intro n
  induction n with
  | zero => rfl
  | succ n ih => simpa [watchRun, List.replicate_succ, List.foldl_cons] using ih

/-- State of an entry after one accepted notification, n further notifications
during the callback, completion of the callback, and m further notifications
during the cooldown: one single execution ran. -/
theorem watchRun_burst (n m : Nat) :
    watchRun watchInit
      (WatchEv.notify :: (List.replicate n WatchEv.notify
        ++ [WatchEv.complete] ++ List.replicate m WatchEv.notify))
      = ⟨WatchPhase.cooling, 1, 1⟩ := by
  have happ : ∀ a b (st : WatchSt), watchRun st (a ++ b) = watchRun (watchRun st a) b :=
    fun a b st => List.foldl_append watchStep st a b
  show watchRun (watchStep watchInit WatchEv.notify)
    (List.replicate n WatchEv.notify ++ [WatchEv.complete] ++ List.replicate m WatchEv.notify)
    = ⟨WatchPhase.cooling, 1, 1⟩
  rw [show watchStep watchInit WatchEv.notify = ⟨WatchPhase.running, 1, 0⟩ from rfl]
  rw [show (List.replicate n WatchEv.notify ++ [WatchEv.complete]
        ++ List.replicate m WatchEv.notify)
      = List.replicate n WatchEv.notify
        ++ ([WatchEv.complete] ++ List.replicate m WatchEv.notify) from by simp]
  rw [happ, watchRun_notify_running]
  show watchRun ⟨WatchPhase.cooling, 1, 1⟩ (List.replicate m WatchEv.notify) = _
  exact watchRun_notify_cooling 1 1 m

/-- Claim C2: per watch entry, at most one reaction execution is in flight at
any time (along any event sequence from the initial state, the started and
settled counters differ by at most one, with equality of phase running); a
burst of one accepted notification, n notifications during the callback,
completion, and m notifications during the cooldown yields exactly one
execution; the cooldown timer alone starts nothing; and exactly one more
execution starts when a fresh notification arrives after the timer fired. -/
theorem watchEntry_singleFlight (n m : Nat) (evs : List WatchEv) :
    (watchRun watchInit
        (WatchEv.notify :: (List.replicate n WatchEv.notify
          ++ [WatchEv.complete] ++ List.replicate m WatchEv.notify))).started = 1
    ∧ (watchRun watchInit
        (WatchEv.notify :: (List.replicate n WatchEv.notify
          ++ [WatchEv.complete] ++ List.replicate m WatchEv.notify)
          ++ [WatchEv.timerFire])).started = 1
    ∧ (watchRun watchInit
        (WatchEv.notify :: (List.replicate n WatchEv.notify
          ++ [WatchEv.complete] ++ List.replicate m WatchEv.notify)
          ++ [WatchEv.timerFire, WatchEv.notify])).started = 2
    ∧ inFlight (watchRun watchInit evs) ≤ 1 := by
  have hburst := watchRun_burst n m
  have happ : ∀ a b (st : WatchSt), watchRun st (a ++ b) = watchRun (watchRun st a) b :=
    fun a b st => List.foldl_append watchStep st a b
  refine ⟨by rw [hburst], ?_, ?_, ?_⟩
  · rw [show (WatchEv.notify :: (List.replicate n WatchEv.notify
        ++ [WatchEv.complete] ++ List.replicate m WatchEv.notify) ++ [WatchEv.timerFire])
      = (WatchEv.notify :: (List.replicate n WatchEv.notify
        ++ [WatchEv.complete] ++ List.replicate m WatchEv.notify)) ++ [WatchEv.timerFire]
      from rfl, happ, hburst]
    rfl
  · rw [show (WatchEv.notify :: (List.replicate n WatchEv.notify
        ++ [WatchEv.complete] ++ List.replicate m WatchEv.notify)
        ++ [WatchEv.timerFire, WatchEv.notify])
      = (WatchEv.notify :: (List.replicate n WatchEv.notify
        ++ [WatchEv.complete] ++ List.replicate m WatchEv.notify))
        ++ [WatchEv.timerFire, WatchEv.notify]
      from rfl, happ, hburst]
    rfl
  · have hinv : WatchInv (watchRun watchInit evs) :=
      watchRun_inv ⟨by intro h; exact absurd h (by decide), fun _ => rfl⟩ evs
    obtain ⟨h1, h2⟩ := hinv
    by_cases hph : (watchRun watchInit evs).phase = WatchPhase.running
    · have := h1 hph
      simp [inFlight]
      omega
    · have := h2 hph
      simp [inFlight]
      omega

/- ================= Retrying replicator theorems ================= -/

/-- One loop iteration that fails before the last allowed attempt sleeps its
backoff and continues. -/
theorem copyLoopGo_step {E : Type} (attempt : Nat → Except E Unit) (maxRetries rem i : Nat)
    (ds : List Nat) (e2 : E) (h : attempt i = .error e2) (hi : ¬ i = maxRetries - 1) :
    copyLoopGo attempt maxRetries (rem + 1) i ds
      = copyLoopGo attempt maxRetries rem (i + 1) (ds ++ [500 * (i + 1)]) := by
  simp only [copyLoopGo, h, if_neg hi]

/-- One loop iteration that fails on the last allowed attempt rethrows. -/
theorem copyLoopGo_stepLast {E : Type} (attempt : Nat → Except E Unit) (maxRetries rem i : Nat)
    (ds : List Nat) (e2 : E) (h : attempt i = .error e2) (hi : i = maxRetries - 1) :
    copyLoopGo attempt maxRetries (rem + 1) i ds = (.error e2, i + 1, ds) := by
  simp only [copyLoopGo, h, if_pos hi]

/-- One loop iteration that succeeds returns at once. -/
theorem copyLoopGo_stepOk {E : Type} (attempt : Nat → Except E Unit) (maxRetries rem i : Nat)
    (ds : List Nat) (h : attempt i = .ok ()) :
    copyLoopGo attempt maxRetries (rem + 1) i ds = (.ok (), i + 1, ds) := by
  simp only [copyLoopGo, h]

/-- The retry loop under total failure: every remaining iteration fails, the
loop performs them all, rethrows the error of the last attempt, and sleeps
the linearly growing backoffs between consecutive attempts. -/
theorem copyLoopGo_allFail {E : Type} (attempt : Nat → Except E Unit)
    (maxRetries : Nat) (e : Nat → E) :
    ∀ rem i ds, 1 ≤ rem → i + rem = maxRetries →
      (∀ j, i ≤ j → j < maxRetries → attempt j = .error (e j)) →
      copyLoopGo attempt maxRetries rem i ds
        = (.error (e (maxRetries - 1)), maxRetries,
           ds ++ (List.range' i (rem - 1)).map (fun j => 500 * (j + 1))) := by
  intro rem
  induction rem with
  | zero => intro i ds h1 _ _; omega
  | succ rem ih =>
    intro i ds _ h2 h3
    have hai : attempt i = .error (e i) := h3 i (le_refl i) (by omega)
    cases rem with
    | zero =>
      have hi : i = maxRetries - 1 := by omega
      rw [copyLoopGo_stepLast attempt maxRetries 0 i ds (e i) hai hi]
      rw [hi]
      simp
      omega
    | succ r =>
      have hi : ¬ i = maxRetries - 1 := by omega
      rw [copyLoopGo_step attempt maxRetries (r + 1) i ds (e i) hai hi]
      rw [ih (i + 1) (ds ++ [500 * (i + 1)]) (by omega) (by omega)
        (fun j hj1 hj2 => h3 j (by omega) hj2)]
      rw [show List.range' i (r + 2 - 1) = i :: List.range' (i + 1) (r + 1 - 1) from rfl]
      simp

/-- The retry loop when attempt k is the first success: the loop stops there,
having made k + 1 attempts and slept only the backoffs of the k failures
before it. -/
theorem copyLoopGo_success {E : Type} (attempt : Nat → Except E Unit)
    (maxRetries k : Nat) (e : Nat → E) (hk : k < maxRetries)
    (hsucc : attempt k = .ok ()) :
    ∀ rem i ds, i + rem = maxRetries → i ≤ k →
      (∀ j, i ≤ j → j < k → attempt j = .error (e j)) →
      copyLoopGo attempt maxRetries rem i ds
        = (.ok (), k + 1, ds ++ (List.range' i (k - i)).map (fun j => 500 * (j + 1))) := by
  intro rem
  induction rem with
  | zero => intro i ds h1 h2 _; omega
  | succ rem ih =>
    intro i ds h1 h2 h3
    by_cases hik : i = k
    · subst hik
      rw [copyLoopGo_stepOk attempt maxRetries rem i ds hsucc]
      simp
    · have hai : attempt i = .error (e i) := h3 i (le_refl i) (by omega)
      have hi : ¬ i = maxRetries - 1 := by omega
      rw [copyLoopGo_step attempt maxRetries rem i ds (e i) hai hi]
      rw [ih (i + 1) (ds ++ [500 * (i + 1)]) (by omega) (by omega)
        (fun j hj1 hj2 => h3 j (by omega) hj2)]
      rw [show k - i = (k - (i + 1)) + 1 from by omega]
      rw [show List.range' i ((k - (i + 1)) + 1) = i :: List.range' (i + 1) (k - (i + 1)) from rfl]
      simp

/-- Claim C4: when syncPdfFiles reaches the copy stage (artifact present and
stable) and every copy attempt fails, exactly maxRetries attempts are made,
the reported failure carries the error of the last attempt, and the backoffs
slept between consecutive attempts are 500ms, 1000ms, and so on; when some
attempt k (zero-based, k + 1 ≤ maxRetries) is the first to succeed, the sync
succeeds after exactly k + 1 attempts with no further ones. -/
theorem syncPdfFiles_retryExhaustion {E : Type} (poll : Nat → Option (Nat × Nat))
    (attempt : Nat → Except E Unit) (maxRetries k : Nat) (e : Nat → E)
    (hstable : checkFileStable poll 3 500 = true) :
    (1 ≤ maxRetries → (∀ j, j < maxRetries → attempt j = .error (e j)) →
      syncPdfFiles true poll attempt maxRetries
        = ⟨.error (.copyFailed (e (maxRetries - 1))), maxRetries,
           (List.range' 0 (maxRetries - 1)).map (fun j => 500 * (j + 1))⟩)
    ∧ (k < maxRetries → attempt k = .ok () →
        (∀ j, j < k → attempt j = .error (e j)) →
      syncPdfFiles true poll attempt maxRetries
        = ⟨.ok (), k + 1, (List.range' 0 k).map (fun j => 500 * (j + 1))⟩) := by
  constructor
  · intro hmax hfail
    have hloop := copyLoopGo_allFail attempt maxRetries e maxRetries 0 [] (by omega)
      (by omega) (fun j _ hj => hfail j hj)
    simp only [syncPdfFiles, hstable, Bool.not_true, Bool.false_eq_true, if_false,
      copyRetry, hloop]
    rfl
  · intro hk hsucc hfail
    have hloop := copyLoopGo_success attempt maxRetries k e hk hsucc maxRetries 0 []
      (by omega) (by omega) (fun j _ hj => hfail j hj)
    simp only [syncPdfFiles, hstable, Bool.not_true, Bool.false_eq_true, if_false,
      copyRetry, hloop]
    rfl

/-- Witness for C4: two always-failing attempts exhaust maxRetries = 2 with
one 500ms backoff and report the second error; with success on the second
attempt out of three, exactly two attempts are made. -/
theorem syncPdfFiles_retryExhaustion_witness :
    syncPdfFiles true (fun _ => some (0, 0)) (fun i => (Except.error i : Except Nat Unit)) 2
      = ⟨.error (.copyFailed 1), 2, [500]⟩
    ∧ syncPdfFiles true (fun _ => some (0, 0))
        (fun i => if i = 1 then Except.ok () else (Except.error i : Except Nat Unit)) 3
      = ⟨.ok (), 2, [500]⟩ := by
  constructor
  · exact (syncPdfFiles_retryExhaustion (fun _ => some (0, 0))
      (fun i => (Except.error i : Except Nat Unit)) 2 0 (fun i => i) rfl).1
      (by omega) (fun j _ => rfl)
  · exact (syncPdfFiles_retryExhaustion (fun _ => some (0, 0))
      (fun i => if i = 1 then Except.ok () else (Except.error i : Except Nat Unit)) 3 1
      (fun i => i) rfl).2 (by omega) rfl
      (fun j hj => by
        have hj0 : j = 0 := by omega
        subst hj0
        rfl)

/-- Claim C7: syncPdfFiles fails with the not-found error when the main
artifact is missing, regardless of the stability polls (the existence check
runs first), and with the not-stable error when the artifact exists but the
stability check with three samples at a 500ms interval reports instability;
in both failure cases zero copy attempts are made. -/
theorem syncPdfFiles_precondChecks {E : Type} (poll : Nat → Option (Nat × Nat))
    (attempt : Nat → Except E Unit) (maxRetries : Nat) :
    syncPdfFiles false poll attempt maxRetries = ⟨.error .notFound, 0, []⟩
    ∧ (checkFileStable poll 3 500 = false →
      syncPdfFiles true poll attempt maxRetries = ⟨.error .notStable, 0, []⟩) := by
  constructor
  · rfl
  · intro h
    simp [syncPdfFiles, h]

/-- Witness for C7: a file whose metadata changes on every poll fails the
stability stage with zero attempts, and a missing file fails the existence
stage with zero attempts. -/
theorem syncPdfFiles_precondChecks_witness :
    syncPdfFiles false (fun _ => some (0, 0)) (fun _ => (Except.ok () : Except Nat Unit)) 3
      = ⟨.error .notFound, 0, []⟩
    ∧ syncPdfFiles true (fun i => some (5, i)) (fun _ => (Except.ok () : Except Nat Unit)) 3
      = ⟨.error .notStable, 0, []⟩ :=
  ⟨(syncPdfFiles_precondChecks (fun _ => some (0, 0))
      (fun _ => (Except.ok () : Except Nat Unit)) 3).1,
   (syncPdfFiles_precondChecks (fun i => some (5, i))
      (fun _ => (Except.ok () : Except Nat Unit)) 3).2 rfl⟩

/- ================= Diff invocation adapter theorems ================= -/

/-- Claim C5 (amended): when the child process reports an error the call fails
with the stderr text, or with the error's message when stderr is empty;
otherwise standard output is first trimmed of leading and trailing whitespace,
then split on newlines, and exactly the lines ending in .png are retained in
the order the tool emitted them (the retained list is a sublist of the lines
and every retained line ends in .png); when that list is empty the call fails
with the no-differences error and otherwise the non-empty list is returned. -/
theorem executePythonDiff_outputParsing (msg stdout stderr : List Char) :
    (executePythonDiff (some msg) stdout stderr
      = .error (.toolErr (if stderr = [] then msg else stderr)))
    ∧ (((trimJs stdout).splitOn '\n').filter (fun l => decide (pngSuffix <:+ l)) = []
        → executePythonDiff none stdout stderr = .error .noDifferences)
    ∧ (((trimJs stdout).splitOn '\n').filter (fun l => decide (pngSuffix <:+ l)) ≠ []
        → executePythonDiff none stdout stderr
            = .ok (((trimJs stdout).splitOn '\n').filter (fun l => decide (pngSuffix <:+ l))))
    ∧ (((trimJs stdout).splitOn '\n').filter (fun l => decide (pngSuffix <:+ l))).Sublist
        ((trimJs stdout).splitOn '\n')
    ∧ ∀ l ∈ ((trimJs stdout).splitOn '\n').filter (fun l => decide (pngSuffix <:+ l)),
        pngSuffix <:+ l := by
  refine ⟨?_, ?_, ?_, List.filter_sublist _, ?_⟩
  · cases stderr <;> simp [executePythonDiff]
  · intro h
    simp [executePythonDiff, h]
  · intro h
    have hne : (((trimJs stdout).splitOn '\n').filter
        (fun l => decide (pngSuffix <:+ l))).isEmpty = false := by
      cases hcase : ((trimJs stdout).splitOn '\n').filter (fun l => decide (pngSuffix <:+ l)) with
      | nil => exact absurd hcase h
      | cons a l => rfl
    simp [executePythonDiff, hne]
  · intro l hl
    rw [List.mem_filter] at hl
    exact of_decide_eq_true hl.2

/-- Witness for C5: a run with two artifact lines and one junk line keeps
exactly the artifact lines in order; a failing process with nonempty stderr
reports the stderr text. -/
theorem executePythonDiff_outputParsing_witness :
    executePythonDiff none (strL "a.png\nb\nc.png") (strL "")
      = .ok [strL "a.png", strL "c.png"]
    ∧ executePythonDiff (some (strL "m")) (strL "a.png") (strL "e")
      = .error (.toolErr (strL "e")) :=
  ⟨(executePythonDiff_outputParsing (strL "m") (strL "a.png\nb\nc.png") (strL "")).2.2.1
     (by decide),
   (executePythonDiff_outputParsing (strL "m") (strL "a.png") (strL "e")).1⟩

/-- Counterexample for C5 as stated: the adapter trims standard output before
splitting, so with stdout consisting of a single line with a leading space the
retained entry is the trimmed line, while splitting the raw standard output on
newlines and filtering by the .png suffix keeps the untrimmed line; the claim
that exactly the lines of standard output ending in .png are retained is
therefore false on this input. -/
theorem executePythonDiff_trimCounterexample :
    executePythonDiff none (strL " a.png") (strL "") = .ok [strL "a.png"]
    ∧ ((strL " a.png").splitOn '\n').filter (fun l => decide (pngSuffix <:+ l))
        = [strL " a.png"]
    ∧ strL "a.png" ≠ strL " a.png" :=
  ⟨rfl, by decide, by decide⟩

/- ================= Anchor registry theorems ================= -/

/-- A path misses the registry exactly when it has no entry. -/
theorem lookupW_none_iff (ws : List (List Char × Nat)) (p : List Char) :
    lookupW ws p = none ↔ countW ws p = 0 := by
  induction ws with
  | nil => simp [lookupW, countW]
  | cons e rest ih =>
    obtain ⟨q, w⟩ := e
    by_cases hq : q = p
    · simp [lookupW, hq, countW]
    · simp only [lookupW, if_neg hq]
      rw [ih]
      simp [countW, hq]

/-- A successful lookup means at least one entry. -/
theorem countW_pos_of_lookup (ws : List (List Char × Nat)) (p : List Char) (w : Nat)
    (h : lookupW ws p = some w) : 1 ≤ countW ws p := by
  cases hc : countW ws p with
  | zero => rw [(lookupW_none_iff ws p).mpr hc] at h; exact absurd h (by simp)
  | succ n => omega

/-- Appending a fresh entry for a path adds one to its count. -/
theorem countW_append_single (ws : List (List Char × Nat)) (p : List Char) (n : Nat) :
    countW (ws ++ [(p, n)]) p = countW ws p + 1 := by
  simp [countW, List.filter_append]

/-- Deleting the entry of a path from a duplicate-free registry leaves none. -/
theorem countW_eraseW (ws : List (List Char × Nat)) (p : List Char)
    (h : countW ws p ≤ 1) : countW (eraseW ws p) p = 0 := by
  induction ws with
  | nil => simp [eraseW, countW]
  | cons e rest ih =>
    obtain ⟨q, w⟩ := e
    by_cases hq : q = p
    · simp only [eraseW, if_pos hq]
      have : countW ((q, w) :: rest) p = countW rest p + 1 := by simp [countW, hq]
      rw [this] at h
      omega
    · simp only [eraseW, if_neg hq]
      have hh : countW ((q, w) :: rest) p = countW rest p := by simp [countW, hq]
      have hgoal : countW ((q, w) :: eraseW rest p) p = countW (eraseW rest p) p := by
        simp [countW, hq]
      rw [hgoal]
      exact ih (by omega)

/-- Claim C8 (amended): observing a marker-bearing document while the bundled
comparison script is available leaves the registry with exactly one watcher
for the derived draft path and disposes nothing; re-observing while a watcher
is registered is a no-op on the registry; observing the same document with the
marker gone while a watcher is registered disposes exactly that watcher and
removes its entry. -/
theorem setupAnchorSystem_registryLifecycle (scriptOk : Bool) (texPath : List Char)
    (st : AnchorState) (w : Nat) :
    (scriptOk = true → countW st.watchers (getDrawPdfPath texPath) ≤ 1 →
      countW (setupAnchorSystem scriptOk true texPath st).1.watchers
          (getDrawPdfPath texPath) = 1
      ∧ (setupAnchorSystem scriptOk true texPath st).2 = [])
    ∧ (scriptOk = true → (lookupW st.watchers (getDrawPdfPath texPath)).isSome = true →
      setupAnchorSystem scriptOk true texPath st = (st, []))
    ∧ (lookupW st.watchers (getDrawPdfPath texPath) = some w →
      setupAnchorSystem scriptOk false texPath st
        = (⟨eraseW st.watchers (getDrawPdfPath texPath), st.nextId⟩, [w])
      ∧ (countW st.watchers (getDrawPdfPath texPath) ≤ 1 →
         countW (eraseW st.watchers (getDrawPdfPath texPath)) (getDrawPdfPath texPath) = 0)) := by
  refine ⟨?_, ?_, ?_⟩
  · rintro rfl hdup
    cases hl : lookupW st.watchers (getDrawPdfPath texPath) with
    | some w2 =>
      have hsetup : setupAnchorSystem true true texPath st = (st, []) := by
        simp [setupAnchorSystem, hl]
      rw [hsetup]
      refine ⟨?_, rfl⟩
      show countW st.watchers (getDrawPdfPath texPath) = 1
      have := countW_pos_of_lookup _ _ _ hl
      omega
    | none =>
      have hsetup : setupAnchorSystem true true texPath st
          = (⟨st.watchers ++ [(getDrawPdfPath texPath, st.nextId)], st.nextId + 1⟩, []) := by
        simp [setupAnchorSystem, hl]
      rw [hsetup]
      refine ⟨?_, rfl⟩
      show countW (st.watchers ++ [(getDrawPdfPath texPath, st.nextId)])
        (getDrawPdfPath texPath) = 1
      rw [countW_append_single, (lookupW_none_iff _ _).mp hl]
  · rintro rfl hsome
    obtain ⟨w2, hw2⟩ := Option.isSome_iff_exists.mp hsome
    simp [setupAnchorSystem, hw2]
  · intro hl
    exact ⟨by simp [setupAnchorSystem, hl], fun hdup => countW_eraseW _ _ hdup⟩

/-- Witness for C8: arming an empty registry yields one watcher for the draft
path; observing the marker gone disposes the registered watcher. -/
theorem setupAnchorSystem_registryLifecycle_witness :
    countW (setupAnchorSystem true true (strL "a.tex") ⟨[], 0⟩).1.watchers
        (getDrawPdfPath (strL "a.tex")) = 1
    ∧ setupAnchorSystem true false (strL "a.tex") ⟨[(strL "a_draw.pdf", 5)], 6⟩
        = (⟨eraseW [(strL "a_draw.pdf", 5)] (getDrawPdfPath (strL "a.tex")), 6⟩, [5]) :=
  ⟨((setupAnchorSystem_registryLifecycle true (strL "a.tex") ⟨[], 0⟩ 5).1 rfl
      (by decide)).1,
   ((setupAnchorSystem_registryLifecycle true (strL "a.tex") ⟨[(strL "a_draw.pdf", 5)], 6⟩
      5).2.2 (by decide)).1⟩

/-- Counterexample for C8 as stated: when the bundled comparison script is
missing, observing a marker-bearing document registers nothing, so the
registry does not hold exactly one watcher for the derived draft path. -/
theorem setupAnchorSystem_scriptMissingCounterexample :
    setupAnchorSystem false true (strL "a.tex") ⟨[], 0⟩ = (⟨[], 0⟩, [])
    ∧ countW (setupAnchorSystem false true (strL "a.tex") ⟨[], 0⟩).1.watchers
        (getDrawPdfPath (strL "a.tex")) = 0 :=
  ⟨rfl, rfl⟩

/- ================= Path derivation theorems ================= -/

/-- Claim C9: for a document path with the case-insensitive .tex extension,
deriving the artifact path swaps the extension to .pdf on the unchanged stem,
and swapping back yields the stem with the .tex extension: a path that can
differ from the original only in the four extension characters (whose
lowercase form is .tex). -/
theorem getMainPdfPath_roundTrip (p : List Char)
    (h : hasSuffixCI (strL ".tex") p = true) :
    pdfToTexPath (getMainPdfPath p) = p.take (p.length - 4) ++ strL ".tex"
    ∧ getMainPdfPath p = p.take (p.length - 4) ++ strL ".pdf"
    ∧ p.take (p.length - 4) ++ p.drop (p.length - 4) = p
    ∧ (p.drop (p.length - 4)).map lowerA = strL ".tex"
    ∧ (p.drop (p.length - 4)).length = 4 := by
  have hparts : 4 ≤ p.length ∧ (p.drop (p.length - 4)).map lowerA = strL ".tex" := by
    have h2 := h
    simp only [hasSuffixCI, Bool.and_eq_true, decide_eq_true_eq] at h2
    exact h2
  obtain ⟨hle, hmap⟩ := hparts
  have hmain : getMainPdfPath p = p.take (p.length - 4) ++ strL ".pdf" := by
    simp [getMainPdfPath, h]
  have hstemlen : (p.take (p.length - 4)).length = p.length - 4 := by
    simp
  have hsfx : hasSuffixCI (strL ".pdf") (p.take (p.length - 4) ++ strL ".pdf") = true := by
    simp only [hasSuffixCI, Bool.and_eq_true, decide_eq_true_eq]
    constructor
    · simp
    · rw [show (p.take (p.length - 4) ++ strL ".pdf").length - (strL ".pdf").length
          = (p.take (p.length - 4)).length from by simp]
      rw [List.drop_left]
      decide
  have hback : pdfToTexPath (p.take (p.length - 4) ++ strL ".pdf")
      = p.take (p.length - 4) ++ strL ".tex" := by
    simp only [pdfToTexPath, hsfx, if_pos]
    rw [show (p.take (p.length - 4) ++ strL ".pdf").length - 4
        = (p.take (p.length - 4)).length from by
      have h4 : (strL ".pdf").length = 4 := rfl
      simp [h4]]
    rw [List.take_left]
  refine ⟨?_, hmain, List.take_append_drop _ p, hmap, ?_⟩
  · rw [hmain, hback]
  · simp
    omega

/-- Witness for C9 at a mixed-case extension: deriving and swapping back
recovers the stem with the lowercase source extension. -/
theorem getMainPdfPath_roundTrip_witness :
    hasSuffixCI (strL ".tex") (strL "dir/paper.TeX") = true
    ∧ pdfToTexPath (getMainPdfPath (strL "dir/paper.TeX"))
        = (strL "dir/paper.TeX").take ((strL "dir/paper.TeX").length - 4) ++ strL ".tex" :=
  ⟨by decide, (getMainPdfPath_roundTrip (strL "dir/paper.TeX") (by decide)).1⟩
